import Mathlib

/-!
Verification of the core of a Monte Carlo ray tracer (Rust) against its
natural-language specification.

Shallow embedding conventions:
* the Rust scalar `Float` (an `f64`) is modelled by the real numbers `ℝ`;
* `Float3` is a record of three reals, with the arithmetic the source
  defines (componentwise add/sub/neg, scalar multiply/divide, the
  componentwise `scalar / vector` division the source provides through
  `impl Div<Float3> for f64`);
* `Option` models Rust's `Option`, `Bool` Rust's `bool`;
* the random number generator is modelled by an explicit stream of draws,
  one draw per recursion depth (the integrator makes at most one `scatter`
  call per depth, and a `scatter` call makes at most one random draw).

Definitions are translated from the source files (float3.rs, ray.rs,
material.rs, hitable.rs, math.rs, main.rs) of the repository snapshot;
the handful of helpers the snapshot uses but does not contain (they live
in a module revision that is not part of the snapshot) are marked
"Modelled from the spec" in their doc comments.
-/

set_option maxHeartbeats 1000000

/-- float3.rs: `pub struct Float3 { pub x: ℝ, pub y: ℝ, pub z: ℝ }`. -/
@[ext]
structure Float3 where
  x : ℝ
  y : ℝ
  z : ℝ

namespace Float3

/-- float3.rs: `Float3::new()`, the zero vector. -/
def new : Float3 := ⟨0, 0, 0⟩

/-- float3.rs: `Float3::xyz(x, y, z)`. -/
def xyz (x y z : ℝ) : Float3 := ⟨x, y, z⟩

/-- float3.rs: `Float3::xxx(x)`, the constant vector. -/
def xxx (x : ℝ) : Float3 := ⟨x, x, x⟩

end Float3

/-- float3.rs: componentwise vector addition (`impl ops::Add<Float3> for Float3`). -/
instance : Add Float3 := ⟨fun a b => ⟨a.x + b.x, a.y + b.y, a.z + b.z⟩⟩

/-- float3.rs: componentwise vector subtraction (`impl ops::Sub for Float3`). -/
instance : Sub Float3 := ⟨fun a b => ⟨a.x - b.x, a.y - b.y, a.z - b.z⟩⟩

/-- float3.rs: componentwise negation (`impl ops::Neg for Float3`). -/
instance : Neg Float3 := ⟨fun a => ⟨-a.x, -a.y, -a.z⟩⟩

/-- float3.rs: scalar times vector (`impl ops::Mul<Float3> for f64`). -/
instance : HMul ℝ Float3 Float3 := ⟨fun s v => ⟨s * v.x, s * v.y, s * v.z⟩⟩

/-- float3.rs: vector times scalar (`impl ops::Mul<f64> for Float3`). -/
instance : HMul Float3 ℝ Float3 := ⟨fun v s => ⟨v.x * s, v.y * s, v.z * s⟩⟩

/-- float3.rs: vector divided by scalar (`impl ops::Div<f64> for Float3`). -/
noncomputable instance : HDiv Float3 ℝ Float3 := ⟨fun v s => ⟨v.x / s, v.y / s, v.z / s⟩⟩

/-- float3.rs: scalar divided by vector, componentwise
(`impl ops::Div<Float3> for f64`); `Aabb::hit` uses it as `1.0 / ray.dir`. -/
noncomputable instance : HDiv ℝ Float3 Float3 := ⟨fun s v => ⟨s / v.x, s / v.y, s / v.z⟩⟩

/-- Modelled from the spec: the element-wise product of two vectors.  The
snapshot's float3.rs lacks `impl Mul<Float3> for Float3`, but `Aabb::hit`
multiplies two `Float3`s and the integrator computes
"attenuation * color(...) (element-wise product)" (spec, section 4.5). -/
instance : Mul Float3 := ⟨fun a b => ⟨a.x * b.x, a.y * b.y, a.z * b.z⟩⟩

namespace Float3

@[simp] theorem add_x (a b : Float3) : (a + b).x = a.x + b.x := rfl
@[simp] theorem add_y (a b : Float3) : (a + b).y = a.y + b.y := rfl
@[simp] theorem add_z (a b : Float3) : (a + b).z = a.z + b.z := rfl
@[simp] theorem sub_x (a b : Float3) : (a - b).x = a.x - b.x := rfl
@[simp] theorem sub_y (a b : Float3) : (a - b).y = a.y - b.y := rfl
@[simp] theorem sub_z (a b : Float3) : (a - b).z = a.z - b.z := rfl
@[simp] theorem neg_x (a : Float3) : (-a).x = -a.x := rfl
@[simp] theorem neg_y (a : Float3) : (-a).y = -a.y := rfl
@[simp] theorem neg_z (a : Float3) : (-a).z = -a.z := rfl
@[simp] theorem smul_x (s : ℝ) (a : Float3) : (s * a).x = s * a.x := rfl
@[simp] theorem smul_y (s : ℝ) (a : Float3) : (s * a).y = s * a.y := rfl
@[simp] theorem smul_z (s : ℝ) (a : Float3) : (s * a).z = s * a.z := rfl
@[simp] theorem muls_x (a : Float3) (s : ℝ) : (a * s).x = a.x * s := rfl
@[simp] theorem muls_y (a : Float3) (s : ℝ) : (a * s).y = a.y * s := rfl
@[simp] theorem muls_z (a : Float3) (s : ℝ) : (a * s).z = a.z * s := rfl
@[simp] theorem divs_x (a : Float3) (s : ℝ) : (a / s).x = a.x / s := rfl
@[simp] theorem divs_y (a : Float3) (s : ℝ) : (a / s).y = a.y / s := rfl
@[simp] theorem divs_z (a : Float3) (s : ℝ) : (a / s).z = a.z / s := rfl
@[simp] theorem sdiv_x (s : ℝ) (a : Float3) : (s / a).x = s / a.x := rfl
@[simp] theorem sdiv_y (s : ℝ) (a : Float3) : (s / a).y = s / a.y := rfl
@[simp] theorem sdiv_z (s : ℝ) (a : Float3) : (s / a).z = s / a.z := rfl
@[simp] theorem mul_x (a b : Float3) : (a * b).x = a.x * b.x := rfl
@[simp] theorem mul_y (a b : Float3) : (a * b).y = a.y * b.y := rfl
@[simp] theorem mul_z (a b : Float3) : (a * b).z = a.z * b.z := rfl
@[simp] theorem new_x : Float3.new.x = 0 := rfl
@[simp] theorem new_y : Float3.new.y = 0 := rfl
@[simp] theorem new_z : Float3.new.z = 0 := rfl
@[simp] theorem xxx_x (s : ℝ) : (Float3.xxx s).x = s := rfl
@[simp] theorem xxx_y (s : ℝ) : (Float3.xxx s).y = s := rfl
@[simp] theorem xxx_z (s : ℝ) : (Float3.xxx s).z = s := rfl

/-- float3.rs: `Float3::dot`. -/
def dot (a b : Float3) : ℝ :=
  a.x * b.x + a.y * b.y + a.z * b.z

/-- float3.rs: `Float3::length_sq`, the dot product with itself. -/
def length_sq (v : Float3) : ℝ := v.dot v

/-- float3.rs: `Float3::length`, `self.length_sq().sqrt()`. -/
noncomputable def length (v : Float3) : ℝ := Real.sqrt v.length_sq

/-- float3.rs: `Float3::unit`, `*self / self.length()`. -/
noncomputable def unit (v : Float3) : Float3 := v / v.length

/-- float3.rs: `Float3::reflect`, `*self - 2.0 * self.dot(&n) * n`. -/
def reflect (v n : Float3) : Float3 := v - (2 * v.dot n) * n

/-- float3.rs: `Float3::lerp`, `(1.0 - t) * a + t * b`. -/
def lerp (t : ℝ) (a b : Float3) : Float3 := (1 - t) * a + t * b

/-- Modelled from the spec: componentwise absolute value.  The snapshot's
float3.rs lacks `Float3::abs`, but `Sphere::bounding_box` and the
integrator's non-scattering branch call it; componentwise absolute value is
the only reading consistent with those call sites (a radius made
nonnegative, a color made nonnegative). -/
def abs (v : Float3) : Float3 := ⟨|v.x|, |v.y|, |v.z|⟩

/-- Modelled from the spec: componentwise minimum ("Component-wise min/max
are needed for bounding-box union", spec section 4.1).  The snapshot's
float3.rs lacks `Float3::min`; `Aabb::surrounding` and `Aabb::hit` call it. -/
noncomputable def fmin (a b : Float3) : Float3 :=
  ⟨min a.x b.x, min a.y b.y, min a.z b.z⟩

/-- Modelled from the spec: componentwise maximum ("Component-wise min/max
are needed for bounding-box union", spec section 4.1).  The snapshot's
float3.rs lacks `Float3::max`; `Aabb::surrounding` and `Aabb::hit` call it. -/
noncomputable def fmax (a b : Float3) : Float3 :=
  ⟨max a.x b.x, max a.y b.y, max a.z b.z⟩

@[simp] theorem abs_x (v : Float3) : v.abs.x = |v.x| := rfl
@[simp] theorem abs_y (v : Float3) : v.abs.y = |v.y| := rfl
@[simp] theorem abs_z (v : Float3) : v.abs.z = |v.z| := rfl
@[simp] theorem fmin_x (a b : Float3) : (a.fmin b).x = min a.x b.x := rfl
@[simp] theorem fmin_y (a b : Float3) : (a.fmin b).y = min a.y b.y := rfl
@[simp] theorem fmin_z (a b : Float3) : (a.fmin b).z = min a.z b.z := rfl
@[simp] theorem fmax_x (a b : Float3) : (a.fmax b).x = max a.x b.x := rfl
@[simp] theorem fmax_y (a b : Float3) : (a.fmax b).y = max a.y b.y := rfl
@[simp] theorem fmax_z (a b : Float3) : (a.fmax b).z = max a.z b.z := rfl

/-- The comparison `#[derive(PartialOrd)]` produces on `Float3`: it compares
the fields x, y, z lexicographically (in the real-number model there are no
NaNs, so `partial_cmp` never returns `None`).  `Aabb::hit` uses it in its
final `(t0 < t1)` test. -/
def derivedLt (a b : Float3) : Prop :=
  a.x < b.x ∨ (a.x = b.x ∧ (a.y < b.y ∨ (a.y = b.y ∧ a.z < b.z)))

end Float3

/-- ray.rs (spec section 3): `origin`, `dir`, and the exposure-time tag `t`.
The snapshot's ray.rs predates the time tag, but material.rs and hitable.rs
both read `ray.t`; the spec lists "Ray: origin, direction, time". -/
structure Ray where
  origin : Float3
  dir : Float3
  t : ℝ

namespace Ray

/-- Rust `Ray::default()`: all fields zero. -/
def default : Ray := ⟨Float3.new, Float3.new, 0⟩

/-- ray.rs: `Ray::at_t`, `self.origin + t * self.dir`. -/
def at_t (r : Ray) (t : ℝ) : Float3 := r.origin + t * r.dir

end Ray

/-- math.rs: `schlick(cosine, refraction_index)`. -/
noncomputable def schlick (cosine refraction_index : ℝ) : ℝ :=
  let r0 := (1 - refraction_index) / (1 + refraction_index)
  let r0 := r0 * r0
  r0 + (1 - r0) * (1 - cosine) ^ 5

/-- Modelled from the spec: `refract(v, n, ni_over_nt)` "returns an outgoing
direction or no refraction when the discriminant of Snell's law is negative
(total internal reflection)" (spec section 4.1).  The snapshot lacks
`Float3::refract`; `Dielectric::scatter` calls it.  The direction is the
standard Snell construction on the normalized incoming vector. -/
noncomputable def Float3.refract (v n : Float3) (niOverNt : ℝ) : Option Float3 :=
  let uv := v.unit
  let dt := uv.dot n
  let discriminant := 1 - niOverNt * niOverNt * (1 - dt * dt)
  if discriminant < 0 then none
  else some (niOverNt * (uv - dt * n) - Real.sqrt discriminant * n)

/-- material.rs: the concrete materials of the scene (Lambertian, NormalToRgb,
Metal, Dielectric), as a closed variant type (spec section 9 allows this). -/
inductive Material where
  | lambertian (albedo : Float3)
  | normalToRgb
  | metal (albedo : Float3) (fuzz : ℝ)
  | dielectric (refraction_index : ℝ)

/-- hitable.rs: `HitRecord { t, p, normal, material }`. -/
structure HitRecord where
  t : ℝ
  p : Float3
  normal : Float3
  material : Material

/-- One random draw: `random_in_sphere()` produces a `Float3`,
`random_float()` a scalar in [0,1).  A `scatter` call consumes at most one
draw of each kind, so a draw bundles both. -/
structure RandDraw where
  inSphere : Float3
  uniform : ℝ

/-- material.rs, `Dielectric::scatter`: the outward normal picked from the
sign of `ray_in.dir.dot(&record.normal)`. -/
noncomputable def dielectricOutwardNormal (rayIn : Ray) (rec : HitRecord) : Float3 :=
  if 0 < rayIn.dir.dot rec.normal then -rec.normal else rec.normal

/-- material.rs, `Dielectric::scatter`: the relative refraction index
(`self.refraction_index` when exiting, its reciprocal when entering). -/
noncomputable def dielectricEta (ri : ℝ) (rayIn : Ray) (rec : HitRecord) : ℝ :=
  if 0 < rayIn.dir.dot rec.normal then ri else 1 / ri

/-- material.rs, `Dielectric::scatter`: the cosine fed to `schlick`. -/
noncomputable def dielectricCosine (ri : ℝ) (rayIn : Ray) (rec : HitRecord) : ℝ :=
  if 0 < rayIn.dir.dot rec.normal then
    ri * (rayIn.dir.unit.dot rec.normal)
  else
    -(rayIn.dir.unit.dot rec.normal)

/-- material.rs: `Material::scatter(ray_in, record, &mut attenuation,
&mut scattered) -> bool`, returned as the written `(attenuation, scattered,
bool)` triple.  The integrator (the only caller) passes freshly defaulted
`attenuation` and `scattered`, so an unwritten output keeps its default. -/
noncomputable def Material.scatter :
    Material → RandDraw → Ray → HitRecord → Float3 × Ray × Bool
  | .normalToRgb, _, _, rec =>
      -- NormalToRgb writes only the attenuation and reports no scattered ray.
      (rec.normal.unit, Ray.default, false)
  | .lambertian albedo, d, rayIn, rec =>
      let target := rec.p + rec.normal + d.inSphere
      (albedo, ⟨rec.p, target - rec.p, rayIn.t⟩, true)
  | .metal albedo fuzz, d, rayIn, rec =>
      let reflected := rayIn.dir.unit.reflect rec.normal
      let dir := reflected + fuzz * d.inSphere
      (albedo, ⟨rec.p, dir, rayIn.t⟩, decide (0 < dir.dot rec.normal))
  | .dielectric ri, d, rayIn, rec =>
      let reflected := rayIn.dir.reflect rec.normal
      let outwardNormal := dielectricOutwardNormal rayIn rec
      let refractionIndex := dielectricEta ri rayIn rec
      let cosine := dielectricCosine ri rayIn rec
      let scatteredDir :=
        match rayIn.dir.refract outwardNormal refractionIndex with
        | some refracted =>
            -- source: `if random_float() >= schlick(cosine, refraction_index)`
            if schlick cosine refractionIndex ≤ d.uniform then refracted
            else reflected
        | none => reflected
      (⟨1, 1, 1⟩, ⟨rec.p, scatteredDir, rayIn.t⟩, true)

/-- hitable.rs, `Sphere::hit`: `oc = ray.origin - self.center`. -/
def Sphere.oc (center : Float3) (ray : Ray) : Float3 := ray.origin - center

/-- hitable.rs: `pub struct Sphere { center, radius, material }`. -/
structure Sphere where
  center : Float3
  radius : ℝ
  material : Material

namespace Sphere

/-- hitable.rs, `Sphere::hit`: `a = ray.dir.length_sq()`. -/
def hitA (ray : Ray) : ℝ := ray.dir.length_sq

/-- hitable.rs, `Sphere::hit`: `b = oc.dot(&ray.dir)`. -/
def hitB (s : Sphere) (ray : Ray) : ℝ := (Sphere.oc s.center ray).dot ray.dir

/-- hitable.rs, `Sphere::hit`: `c = oc.length_sq() - radius * radius`. -/
def hitC (s : Sphere) (ray : Ray) : ℝ :=
  (Sphere.oc s.center ray).length_sq - s.radius * s.radius

/-- hitable.rs, `Sphere::hit`: `discriminant = b * b - a * c`. -/
def hitDisc (s : Sphere) (ray : Ray) : ℝ :=
  s.hitB ray * s.hitB ray - Sphere.hitA ray * s.hitC ray

/-- hitable.rs, `Sphere::hit`: the first root tried,
`(-b - discriminant.sqrt()) / a`. -/
noncomputable def root1 (s : Sphere) (ray : Ray) : ℝ :=
  (-s.hitB ray - Real.sqrt (s.hitDisc ray)) / Sphere.hitA ray

/-- hitable.rs, `Sphere::hit`: the second root tried,
`(-b + discriminant.sqrt()) / a`. -/
noncomputable def root2 (s : Sphere) (ray : Ray) : ℝ :=
  (-s.hitB ray + Real.sqrt (s.hitDisc ray)) / Sphere.hitA ray

/-- hitable.rs, `Sphere::hit`: the record built at parameter `t`:
`p = ray.at_t(t)`, `normal = (p - self.center) / self.radius`. -/
noncomputable def hitRecAt (s : Sphere) (ray : Ray) (t : ℝ) : HitRecord :=
  ⟨t, ray.at_t t, (ray.at_t t - s.center) / s.radius, s.material⟩

/-- hitable.rs: `Sphere::hit`.  Tests `discriminant >= 0.0`, then the two
roots in order against the open interval `(t_min, t_max)`. -/
noncomputable def hit (s : Sphere) (ray : Ray) (t_min t_max : ℝ) :
    Option HitRecord :=
  if 0 ≤ s.hitDisc ray then
    if t_min < s.root1 ray ∧ s.root1 ray < t_max then
      some (s.hitRecAt ray (s.root1 ray))
    else if t_min < s.root2 ray ∧ s.root2 ray < t_max then
      some (s.hitRecAt ray (s.root2 ray))
    else none
  else none

end Sphere

/-- hitable.rs: `pub struct MovingSphere { sphere, motion }`. -/
structure MovingSphere where
  sphere : Sphere
  motion : Float3

/-- hitable.rs, `MovingSphere::hit`: translate the embedded sphere's center
by `ray.t * motion`, then delegate to `Sphere::hit`. -/
noncomputable def MovingSphere.hit (ms : MovingSphere) (ray : Ray)
    (t_min t_max : ℝ) : Option HitRecord :=
  ({ ms.sphere with center := ms.sphere.center + ray.t * ms.motion }).hit
    ray t_min t_max

/-- hitable.rs: the concrete `dyn Hitable` variants the scenes build
(`make_green_scene` and `make_cover_scene` put only `Sphere`s and
`MovingSphere`s into a `HitableList`). -/
inductive Hitable where
  | sphere (s : Sphere)
  | movingSphere (ms : MovingSphere)

/-- Dispatch of `Hitable::hit` over the scene's concrete variants. -/
noncomputable def Hitable.hit : Hitable → Ray → ℝ → ℝ → Option HitRecord
  | .sphere s, ray, t_min, t_max => s.hit ray t_min t_max
  | .movingSphere ms, ray, t_min, t_max => ms.hit ray t_min t_max

/-- hitable.rs, `HitableList::hit`: the loop body.  `acc` is `o_hit_record`,
`closest` the shrinking `t_max`. -/
noncomputable def hitableListHitAux (ray : Ray) (t_min : ℝ) :
    List Hitable → Option HitRecord → ℝ → Option HitRecord
  | [], acc, _ => acc
  | h :: rest, acc, closest =>
      match h.hit ray t_min closest with
      | some newRecord => hitableListHitAux ray t_min rest (some newRecord) newRecord.t
      | none => hitableListHitAux ray t_min rest acc closest

/-- hitable.rs: `HitableList::hit`, a linear scan starting from no record
and `closest = t_max`. -/
noncomputable def hitableListHit (hitables : List Hitable) (ray : Ray)
    (t_min t_max : ℝ) : Option HitRecord :=
  hitableListHitAux ray t_min hitables none t_max

/-- hitable.rs: `pub struct Aabb { min: Float3, max: Float3 }`. -/
structure Aabb where
  min : Float3
  max : Float3

/-- hitable.rs: `Aabb::surrounding`, componentwise min of mins and max of
maxes. -/
noncomputable def Aabb.surrounding (box0 box1 : Aabb) : Aabb :=
  ⟨box0.min.fmin box1.min, box0.max.fmax box1.max⟩

/-- hitable.rs: `Aabb::hit`, translated line by line: the reciprocal
direction, the two slab corner vectors, the per-axis swap when the
reciprocal is negative, then `t0 = t0.min(tmin)`, `t1 = t1.max(tmax)` and
the derived (lexicographic) `Float3` comparison `(t0 < t1)`. -/
noncomputable def Aabb.hit (self : Aabb) (ray : Ray) (tmin tmax : ℝ) : Prop :=
  let invDir : Float3 := (1 : ℝ) / ray.dir
  let t0 := (self.min - ray.origin) * invDir
  let t1 := (self.max - ray.origin) * invDir
  -- `mem::swap(&mut t0.{axis}, &mut t1.{axis})` when `inv_dir.{axis} < 0`
  let t0s : Float3 := ⟨if invDir.x < 0 then t1.x else t0.x,
                       if invDir.y < 0 then t1.y else t0.y,
                       if invDir.z < 0 then t1.z else t0.z⟩
  let t1s : Float3 := ⟨if invDir.x < 0 then t0.x else t1.x,
                       if invDir.y < 0 then t0.y else t1.y,
                       if invDir.z < 0 then t0.z else t1.z⟩
  let t0c := t0s.fmin (Float3.xxx tmin)
  let t1c := t1s.fmax (Float3.xxx tmax)
  Float3.derivedLt t0c t1c

/-- hitable.rs, `Sphere::bounding_box`. -/
noncomputable def Sphere.boundingBox (s : Sphere) (_t0 _t1 : ℝ) : Option Aabb :=
  let r := (Float3.xxx s.radius).abs
  some ⟨s.center - r, s.center + r⟩

/-- hitable.rs, `MovingSphere::bounding_box`: the union of the embedded
sphere's boxes at the interval's two endpoints (the source `unwrap()`s are
total because a sphere always has a box). -/
noncomputable def MovingSphere.boundingBox (ms : MovingSphere) (t0 t1 : ℝ) :
    Option Aabb :=
  let sphereT0 : Sphere := { ms.sphere with center := ms.sphere.center + ms.motion * t0 }
  let sphereT1 : Sphere := { ms.sphere with center := ms.sphere.center + ms.motion * t1 }
  let r0 := (Float3.xxx sphereT0.radius).abs
  let r1 := (Float3.xxx sphereT1.radius).abs
  some (Aabb.surrounding ⟨sphereT0.center - r0, sphereT0.center + r0⟩
                         ⟨sphereT1.center - r1, sphereT1.center + r1⟩)

/-- Dispatch of `Hitable::bounding_box` over the scene's concrete variants. -/
noncomputable def Hitable.boundingBox : Hitable → ℝ → ℝ → Option Aabb
  | .sphere s, t0, t1 => s.boundingBox t0 t1
  | .movingSphere ms, t0, t1 => ms.boundingBox t0 t1

/-- hitable.rs, `HitableList::bounding_box`: the loop over the remaining
members once a first box is in hand; `none` from any member aborts. -/
noncomputable def surroundAll : List (Option Aabb) → Aabb → Option Aabb
  | [], runningAabb => some runningAabb
  | none :: _, _ => none
  | some nextBox :: rest, runningAabb =>
      surroundAll rest (Aabb.surrounding runningAabb nextBox)

/-- hitable.rs, `HitableList::bounding_box` over the list of the members'
boxes: `none` for an empty list, `none` if the first member has no box,
otherwise fold `Aabb::surrounding` with early exit on a boxless member. -/
noncomputable def hitableListBoundingBoxAux : List (Option Aabb) → Option Aabb
  | [] => none
  | none :: _ => none
  | some aabb :: rest => surroundAll rest aabb

/-- hitable.rs: `HitableList::bounding_box`. -/
noncomputable def hitableListBoundingBox (hitables : List Hitable) (t0 t1 : ℝ) :
    Option Aabb :=
  hitableListBoundingBoxAux (hitables.map (fun h => h.boundingBox t0 t1))

/-- main.rs: `const MAX_RAY_RECURSION: u32 = 50`. -/
def MAX_RAY_RECURSION : ℕ := 50

/-- main.rs: `std::f64::MAX`, the upper end of the integrator's search
interval, as an exact real (the largest finite f64). -/
noncomputable def f64MAX : ℝ := 2 ^ 1024 - 2 ^ 971

/-- main.rs: `color(ray, world, depth)`.  The source expression is

`if depth < MAX && material.scatter(..) { attenuation * color(scattered, world, depth+1) }`
`else if depth == MAX { magenta } else { attenuation.abs() }`

where `&&` short-circuits, so `scatter` runs (and writes `attenuation` and
`scattered` over their defaults) only when `depth < MAX`; the nested `if`s
below reproduce exactly that dataflow.  `rnd depth` is the draw the single
scatter call at this depth consumes. -/
noncomputable def color (rnd : ℕ → RandDraw) (world : List Hitable)
    (ray : Ray) (depth : ℕ) : Float3 :=
  match hitableListHit world ray (1 / 1000) f64MAX with
  | some hitRecord =>
      if _h : depth < MAX_RAY_RECURSION then
        let res := hitRecord.material.scatter (rnd depth) ray hitRecord
        if res.2.2 then res.1 * color rnd world res.2.1 (depth + 1)
        else res.1.abs
      else if depth = MAX_RAY_RECURSION then ⟨1, 0, 1⟩
      else Float3.new.abs
  | none =>
      let white : Float3 := ⟨1, 1, 1⟩
      let blue : Float3 := ⟨0.5, 0.7, 1.0⟩
      let t := 0.5 * (1 + ray.dir.unit.y)
      Float3.lerp t white blue
termination_by MAX_RAY_RECURSION - depth
decreasing_by omega

/-- The number of nested recursive `color` calls made below a call at
`depth`: 1 + the recursion's own count when the scattering branch is taken,
0 otherwise.  It mirrors the recursion structure of `color` exactly. -/
noncomputable def colorCallDepth (rnd : ℕ → RandDraw) (world : List Hitable)
    (ray : Ray) (depth : ℕ) : ℕ :=
  match hitableListHit world ray (1 / 1000) f64MAX with
  | some hitRecord =>
      if _h : depth < MAX_RAY_RECURSION then
        let res := hitRecord.material.scatter (rnd depth) ray hitRecord
        if res.2.2 then 1 + colorCallDepth rnd world res.2.1 (depth + 1)
        else 0
      else 0
  | none => 0
termination_by MAX_RAY_RECURSION - depth
decreasing_by omega

/-- math.rs: `factors(num)`, the increasing list of the positive divisors of
`num` the iterator yields (all divisors from 1 to `num`; nothing for 0). -/
def factors (num : ℕ) : List ℕ :=
  ((List.range num).map (· + 1)).filter (fun d => num % d = 0)

/-- `f64::round` for the nonnegative values this program feeds it: round
half away from zero, i.e. `⌊x + 1/2⌋`. -/
noncomputable def rustRound (x : ℝ) : ℤ := ⌊x + 1 / 2⌋

/-- main.rs, `pick_tiling_dimensions`: `raw_y`, the rounded ideal tile-grid
height `sqrt(n_tiles / aspect)` with `aspect = nx / ny`. -/
noncomputable def rawY (nTiles nx ny : ℕ) : ℝ :=
  ((rustRound (Real.sqrt ((nTiles : ℝ) / ((nx : ℝ) / (ny : ℝ))))) : ℝ)

/-- main.rs, `pick_tiling_dimensions`: the per-factor error, the ratio
`raw_y / factor`, inverted when it is below 1. -/
noncomputable def tileError (ry : ℝ) (factor : ℕ) : ℝ :=
  let nextError := ry / (factor : ℝ)
  if nextError < 1 then 1 / nextError else nextError

/-- main.rs, `pick_tiling_dimensions`: the selection loop over the factors,
keeping `(best_factor, best_error)` and updating on a strict improvement. -/
noncomputable def pickBest (ry : ℝ) :
    List ℕ → ℕ → ℝ → ℕ × ℝ
  | [], bestFactor, bestError => (bestFactor, bestError)
  | f :: rest, bestFactor, bestError =>
      let nextError := tileError ry f
      if nextError < bestError then pickBest ry rest f nextError
      else pickBest ry rest bestFactor bestError

/-- main.rs: `pick_tiling_dimensions(n_tiles, nx, ny)`; starts from
`best_factor = 1` and `best_error = n_tiles as f64`, takes `y` to be the
selected factor and `x = n_tiles / y` (integer division). -/
noncomputable def pick_tiling_dimensions (nTiles nx ny : ℕ) : ℕ × ℕ :=
  let ry := rawY nTiles nx ny
  let y := (pickBest ry (factors nTiles) 1 (nTiles : ℝ)).1
  let x := nTiles / y
  (x, y)

/-! ## Specification-side definitions

These two definitions follow the words of the spec (not the source); each
is compared against the source-derived definition in the claims below. -/

/-- Follows the spec's words (section 4.3, HitableList.hit): among the
members' hit results over the full interval, keep the record with the
smallest `t`, the strictly-less comparison letting the first of equally
close hits win. -/
noncomputable def specBestStep (acc o : Option HitRecord) : Option HitRecord :=
  match acc, o with
  | none, o => o
  | some r, none => some r
  | some r, some r2 => if r2.t < r.t then some r2 else some r

/-- Follows the spec's words (section 4.3, HitableList.hit): fold
`specBestStep` over the members' results. -/
noncomputable def specBestHit (results : List (Option HitRecord)) : Option HitRecord :=
  results.foldl specBestStep none

/-- Follows the spec's words (section 4.3, AABB.hit): the slab test.  Per
axis the entry/exit parameters come from the reciprocal direction, the pair
swapped when the reciprocal is negative; the hit holds iff the intersection
of the three slab intervals, clamped to `[t_min, t_max]`, is non-empty. -/
noncomputable def specAabbSlabHit (box : Aabb) (ray : Ray) (tmin tmax : ℝ) : Prop :=
  let invDir : Float3 := (1 : ℝ) / ray.dir
  let a := (box.min - ray.origin) * invDir
  let b := (box.max - ray.origin) * invDir
  let lox := if invDir.x < 0 then b.x else a.x
  let hix := if invDir.x < 0 then a.x else b.x
  let loy := if invDir.y < 0 then b.y else a.y
  let hiy := if invDir.y < 0 then a.y else b.y
  let loz := if invDir.z < 0 then b.z else a.z
  let hiz := if invDir.z < 0 then a.z else b.z
  let tStart := max tmin (max lox (max loy loz))
  let tEnd := min tmax (min hix (min hiy hiz))
  tStart < tEnd

/-! ## Helper lemmas -/

theorem Float3.length_sq_nonneg (v : Float3) : 0 ≤ v.length_sq := by
  unfold Float3.length_sq Float3.dot
  nlinarith [sq_nonneg v.x, sq_nonneg v.y, sq_nonneg v.z]

theorem Float3.length_sq_pos (v : Float3) (hv : v ≠ Float3.new) :
    0 < v.length_sq := by
  rcases lt_or_eq_of_le (Float3.length_sq_nonneg v) with h | h
  · exact h
  · exfalso
    apply hv
    unfold Float3.length_sq Float3.dot at h
    have hx : v.x = 0 := by nlinarith [sq_nonneg v.x, sq_nonneg v.y, sq_nonneg v.z]
    have hy : v.y = 0 := by nlinarith [sq_nonneg v.x, sq_nonneg v.y, sq_nonneg v.z]
    have hz : v.z = 0 := by nlinarith [sq_nonneg v.x, sq_nonneg v.y, sq_nonneg v.z]
    ext <;> simp [hx, hy, hz, Float3.new]

theorem Sphere.hitA_pos (ray : Ray) (hd : ray.dir ≠ Float3.new) :
    0 < Sphere.hitA ray :=
  Float3.length_sq_pos ray.dir hd

/-- The smaller root is tried first: with a nonzero direction,
`root1 ≤ root2`. -/
theorem Sphere.root1_le_root2 (s : Sphere) (ray : Ray)
    (hd : ray.dir ≠ Float3.new) : s.root1 ray ≤ s.root2 ray := by
  unfold Sphere.root1 Sphere.root2
  have ha : 0 < Sphere.hitA ray := Sphere.hitA_pos ray hd
  have hs : 0 ≤ Real.sqrt (s.hitDisc ray) := Real.sqrt_nonneg _
  exact (div_le_div_iff_of_pos_right ha).mpr (by linarith)

/-- A reported sphere hit lies strictly inside the requested interval. -/
theorem Sphere.hit_t_mem (s : Sphere) (ray : Ray) (t_min t_max : ℝ)
    (rec : HitRecord) (h : s.hit ray t_min t_max = some rec) :
    t_min < rec.t ∧ rec.t < t_max := by
  unfold Sphere.hit at h
  split_ifs at h with h0 h1 h2
  · cases h
    exact h1
  · cases h
    exact h2

/-- A reported hit of any scene member lies strictly inside the requested
interval. -/
theorem Hitable.hit_t_between (h : Hitable) (ray : Ray) (t_min t_max : ℝ)
    (rec : HitRecord) (hh : h.hit ray t_min t_max = some rec) :
    t_min < rec.t ∧ rec.t < t_max := by
  cases h with
  | sphere s => exact Sphere.hit_t_mem s ray t_min t_max rec hh
  | movingSphere ms =>
      exact Sphere.hit_t_mem _ ray t_min t_max rec hh

@[simp] theorem Sphere.hitRecAt_t (s : Sphere) (ray : Ray) (t : ℝ) :
    (s.hitRecAt ray t).t = t := rfl

/-- Restricting the search interval keeps a hit only when its `t` still lies
below the new upper bound. -/
noncomputable def cutoffHit (bound : ℝ) : Option HitRecord → Option HitRecord
  | some r => if r.t < bound then some r else none
  | none => none

/-- Shrinking the upper bound of the search interval filters the sphere's
full-interval result by the new bound: the sphere's candidate roots are
fixed, and the smaller one is tried first. -/
theorem Sphere.hit_truncate (s : Sphere) (ray : Ray) (tmin tmax bound : ℝ)
    (hd : ray.dir ≠ Float3.new) (hle : bound ≤ tmax) :
    s.hit ray tmin bound = cutoffHit bound (s.hit ray tmin tmax) := by
  have ht12 := Sphere.root1_le_root2 s ray hd
  unfold Sphere.hit
  by_cases h0 : 0 ≤ s.hitDisc ray
  · rw [if_pos h0, if_pos h0]
    by_cases f1 : tmin < s.root1 ray ∧ s.root1 ray < tmax
    · rw [if_pos f1]
      by_cases g1 : tmin < s.root1 ray ∧ s.root1 ray < bound
      · rw [if_pos g1]
        simp only [cutoffHit, Sphere.hitRecAt_t]
        rw [if_pos g1.2]
      · have hnb : ¬ s.root1 ray < bound := fun hlt => g1 ⟨f1.1, hlt⟩
        have hnb2 : ¬ (tmin < s.root2 ray ∧ s.root2 ray < bound) :=
          fun hc => hnb (lt_of_le_of_lt ht12 hc.2)
        rw [if_neg g1, if_neg hnb2]
        simp only [cutoffHit, Sphere.hitRecAt_t]
        rw [if_neg hnb]
    · rw [if_neg f1]
      have g1f : ¬ (tmin < s.root1 ray ∧ s.root1 ray < bound) := by
        rintro ⟨ha, hb⟩
        exact f1 ⟨ha, lt_of_lt_of_le hb hle⟩
      rw [if_neg g1f]
      by_cases f2 : tmin < s.root2 ray ∧ s.root2 ray < tmax
      · rw [if_pos f2]
        by_cases g2 : tmin < s.root2 ray ∧ s.root2 ray < bound
        · rw [if_pos g2]
          simp only [cutoffHit, Sphere.hitRecAt_t]
          rw [if_pos g2.2]
        · rw [if_neg g2]
          simp only [cutoffHit, Sphere.hitRecAt_t]
          have hnb : ¬ s.root2 ray < bound := fun hlt => g2 ⟨f2.1, hlt⟩
          rw [if_neg hnb]
      · rw [if_neg f2]
        have g2f : ¬ (tmin < s.root2 ray ∧ s.root2 ray < bound) := by
          rintro ⟨ha, hb⟩
          exact f2 ⟨ha, lt_of_lt_of_le hb hle⟩
        rw [if_neg g2f]
        rfl
  · rw [if_neg h0, if_neg h0]
    rfl

/-- `Sphere.hit_truncate`, lifted to the scene's variants. -/
theorem Hitable.hit_cutoff (h : Hitable) (ray : Ray) (tmin tmax bound : ℝ)
    (hd : ray.dir ≠ Float3.new) (hle : bound ≤ tmax) :
    h.hit ray tmin bound = cutoffHit bound (h.hit ray tmin tmax) := by
  cases h with
  | sphere s => exact Sphere.hit_truncate s ray tmin tmax bound hd hle
  | movingSphere ms => exact Sphere.hit_truncate _ ray tmin tmax bound hd hle

@[simp] theorem specBestStep_none_left (o : Option HitRecord) :
    specBestStep none o = o := by
  cases o <;> rfl

@[simp] theorem specBestStep_none_right (r : HitRecord) :
    specBestStep (some r) none = some r := rfl

theorem specBestStep_some_some (r r2 : HitRecord) :
    specBestStep (some r) (some r2) = if r2.t < r.t then some r2 else some r := rfl

/-- The loop of `HitableList::hit` computes the spec-side fold over the
members' full-interval results, for any loop state consistent with the
loop's invariant (`closest` is `t_max` while no record is held, and the
held record's `t` afterwards). -/
theorem hitableListHitAux_eq_foldl (ray : Ray) (tmin tmax : ℝ)
    (hd : ray.dir ≠ Float3.new) :
    ∀ (hs : List Hitable) (acc : Option HitRecord) (closest : ℝ),
      (acc = none ∧ closest = tmax ∨
        ∃ r, acc = some r ∧ r.t = closest ∧ closest ≤ tmax) →
      hitableListHitAux ray tmin hs acc closest =
        (hs.map (fun h => h.hit ray tmin tmax)).foldl specBestStep acc := by
  intro hs
  induction hs with
  | nil =>
      intro acc closest _
      simp [hitableListHitAux]
  | cons h rest ih =>
      intro acc closest hinv
      rcases hinv with ⟨hacc, hcl⟩ | ⟨r, hacc, hrt, hle⟩
      · subst hacc
        rw [hcl]
        simp only [hitableListHitAux, List.map_cons, List.foldl_cons]
        cases hh : h.hit ray tmin tmax with
        | none =>
            rw [specBestStep_none_left]
            exact ih none tmax (Or.inl ⟨rfl, rfl⟩)
        | some r =>
            have hmem := Hitable.hit_t_between h ray tmin tmax r hh
            rw [specBestStep_none_left]
            exact ih (some r) r.t (Or.inr ⟨r, rfl, rfl, le_of_lt hmem.2⟩)
      · subst hacc
        rw [← hrt] at hle ⊢
        simp only [hitableListHitAux, List.map_cons, List.foldl_cons]
        rw [Hitable.hit_cutoff h ray tmin tmax r.t hd hle]
        cases hh : h.hit ray tmin tmax with
        | none =>
            rw [specBestStep_none_right]
            exact ih (some r) r.t (Or.inr ⟨r, rfl, rfl, hle⟩)
        | some r2 =>
            have hmem := Hitable.hit_t_between h ray tmin tmax r2 hh
            rw [specBestStep_some_some]
            by_cases hlt : r2.t < r.t
            · rw [if_pos hlt]
              simp only [cutoffHit, if_pos hlt]
              exact ih (some r2) r2.t (Or.inr ⟨r2, rfl, rfl, le_of_lt hmem.2⟩)
            · rw [if_neg hlt]
              simp only [cutoffHit, if_neg hlt]
              exact ih (some r) r.t (Or.inr ⟨r, rfl, rfl, hle⟩)

theorem specBestStep_eq_none (acc o : Option HitRecord) :
    specBestStep acc o = none ↔ acc = none ∧ o = none := by
  cases acc with
  | none => cases o <;> simp [specBestStep]
  | some r =>
      cases o with
      | none => simp [specBestStep]
      | some r2 =>
          rw [specBestStep_some_some]
          constructor
          · intro hsplit
            split_ifs at hsplit
          · rintro ⟨hc, -⟩
            cases hc

theorem foldl_specBestStep_eq_none (results : List (Option HitRecord)) :
    ∀ acc, results.foldl specBestStep acc = none ↔
      acc = none ∧ ∀ o ∈ results, o = none := by
  induction results with
  | nil => intro acc; simp
  | cons o rest ih =>
      intro acc
      rw [List.foldl_cons, ih (specBestStep acc o)]
      rw [specBestStep_eq_none]
      constructor
      · rintro ⟨⟨ha, ho⟩, hrest⟩
        exact ⟨ha, by
          intro o2 ho2
          rcases List.mem_cons.mp ho2 with hh | hh
          · exact hh ▸ ho
          · exact hrest o2 hh⟩
      · rintro ⟨ha, hall⟩
        exact ⟨⟨ha, hall o (List.mem_cons_self o rest)⟩,
          fun o2 ho2 => hall o2 (List.mem_cons_of_mem o ho2)⟩

/-- Any record the list scan returns lies strictly inside `(t_min, tmax)`,
for any loop state whose record already does and whose `closest` is at most
`tmax`. -/
theorem hitableListHitAux_t_mem (ray : Ray) (tmin : ℝ) :
    ∀ (hs : List Hitable) (acc : Option HitRecord) (closest tmax : ℝ),
      closest ≤ tmax →
      (∀ r, acc = some r → tmin < r.t ∧ r.t < tmax) →
      ∀ rec, hitableListHitAux ray tmin hs acc closest = some rec →
        tmin < rec.t ∧ rec.t < tmax := by
  intro hs
  induction hs with
  | nil =>
      intro acc closest tmax _ hacc rec hrec
      exact hacc rec hrec
  | cons h rest ih =>
      intro acc closest tmax hle hacc rec hrec
      simp only [hitableListHitAux] at hrec
      cases hh : h.hit ray tmin closest with
      | some r =>
          rw [hh] at hrec
          have hmem := Hitable.hit_t_between h ray tmin closest r hh
          exact ih (some r) r.t tmax (le_trans (le_of_lt hmem.2) hle)
            (fun r2 hr2 => by
              cases hr2
              exact ⟨hmem.1, lt_of_lt_of_le hmem.2 hle⟩)
            rec hrec
      | none =>
          rw [hh] at hrec
          exact ih acc closest tmax hle hacc rec hrec

/-- C10: whenever `Sphere::hit`, `MovingSphere::hit` or `HitableList::hit`
returns a hit record, its `t` satisfies `t_min < t < t_max`: hits are never
reported outside the requested open search interval. -/
theorem hit_t_within_interval :
    (∀ (s : Sphere) (ray : Ray) (t_min t_max : ℝ) (rec : HitRecord),
        s.hit ray t_min t_max = some rec → t_min < rec.t ∧ rec.t < t_max) ∧
    (∀ (ms : MovingSphere) (ray : Ray) (t_min t_max : ℝ) (rec : HitRecord),
        ms.hit ray t_min t_max = some rec → t_min < rec.t ∧ rec.t < t_max) ∧
    (∀ (hs : List Hitable) (ray : Ray) (t_min t_max : ℝ) (rec : HitRecord),
        hitableListHit hs ray t_min t_max = some rec →
          t_min < rec.t ∧ rec.t < t_max) := by
  refine ⟨fun s ray t_min t_max rec h => Sphere.hit_t_mem s ray t_min t_max rec h,
          fun ms ray t_min t_max rec h => Sphere.hit_t_mem _ ray t_min t_max rec h,
          fun hs ray t_min t_max rec h => ?_⟩
  exact hitableListHitAux_t_mem ray t_min hs none t_max t_max le_rfl
    (fun r hr => by cases hr) rec h

/-- C5: `HitableList::hit` returns exactly the record the spec describes:
the member hit with the smallest qualifying `t` over the full interval
(strict comparisons, so the first of equally close hits wins), and `none`
exactly when no member reports a hit. -/
theorem hitableList_hit_closest (hs : List Hitable) (ray : Ray)
    (t_min t_max : ℝ) (hd : ray.dir ≠ Float3.new) (_hint : t_min < t_max) :
    hitableListHit hs ray t_min t_max =
      specBestHit (hs.map (fun h => h.hit ray t_min t_max)) ∧
    (hitableListHit hs ray t_min t_max = none ↔
      ∀ h ∈ hs, h.hit ray t_min t_max = none) := by
  have hmain := hitableListHitAux_eq_foldl ray t_min t_max hd hs none t_max
    (Or.inl ⟨rfl, rfl⟩)
  constructor
  · exact hmain
  · rw [hitableListHit, hmain, foldl_specBestStep_eq_none]
    simp

/-- C4: `Sphere::hit` solves the quadratic with `a = |D|^2`,
`b = dot(O-C, D)`, `c = |O-C|^2 - r^2` and discriminant `b^2 - a*c`; a
negative discriminant yields no hit; otherwise the smaller root
`(-b - sqrt(disc))/a` is tested first, then the larger root, against the
open interval `(t_min, t_max)`, and the first qualifying root is returned
with normal `(point - center)/radius`. -/
theorem sphere_hit_quadratic (s : Sphere) (ray : Ray) (t_min t_max : ℝ)
    (hd : ray.dir ≠ Float3.new) (_hint : t_min < t_max) :
    (Sphere.hitA ray = ray.dir.length_sq ∧
     s.hitB ray = (ray.origin - s.center).dot ray.dir ∧
     s.hitC ray = (ray.origin - s.center).length_sq - s.radius * s.radius ∧
     s.hitDisc ray = s.hitB ray * s.hitB ray - Sphere.hitA ray * s.hitC ray ∧
     s.root1 ray = (-s.hitB ray - Real.sqrt (s.hitDisc ray)) / Sphere.hitA ray ∧
     s.root2 ray = (-s.hitB ray + Real.sqrt (s.hitDisc ray)) / Sphere.hitA ray) ∧
    (s.hitDisc ray < 0 → s.hit ray t_min t_max = none) ∧
    s.root1 ray ≤ s.root2 ray ∧
    (0 ≤ s.hitDisc ray →
      (t_min < s.root1 ray ∧ s.root1 ray < t_max →
        s.hit ray t_min t_max =
          some ⟨s.root1 ray, ray.at_t (s.root1 ray),
                (ray.at_t (s.root1 ray) - s.center) / s.radius, s.material⟩) ∧
      (¬(t_min < s.root1 ray ∧ s.root1 ray < t_max) →
        (t_min < s.root2 ray ∧ s.root2 ray < t_max →
          s.hit ray t_min t_max =
            some ⟨s.root2 ray, ray.at_t (s.root2 ray),
                  (ray.at_t (s.root2 ray) - s.center) / s.radius, s.material⟩) ∧
        (¬(t_min < s.root2 ray ∧ s.root2 ray < t_max) →
          s.hit ray t_min t_max = none))) := by
  refine ⟨⟨rfl, rfl, rfl, rfl, rfl, rfl⟩, ?_, Sphere.root1_le_root2 s ray hd, ?_⟩
  · intro hneg
    unfold Sphere.hit
    rw [if_neg (not_le.mpr hneg)]
  · intro h0
    refine ⟨fun g1 => ?_, fun g1 => ⟨fun g2 => ?_, fun g2 => ?_⟩⟩
    · unfold Sphere.hit
      rw [if_pos h0, if_pos g1]
      rfl
    · unfold Sphere.hit
      rw [if_pos h0, if_neg g1, if_pos g2]
      rfl
    · unfold Sphere.hit
      rw [if_pos h0, if_neg g1, if_neg g2]

/-- A box the ray misses by a wide margin: the x and z slabs are crossed
around t in [5,6], the y slab only around t in [100,101]. -/
def aabbBugBox : Aabb := ⟨⟨5, 100, 5⟩, ⟨6, 101, 6⟩⟩

/-- A ray from the origin along (1,1,1). -/
def aabbBugRay : Ray := ⟨⟨0, 0, 0⟩, ⟨1, 1, 1⟩, 0⟩

/-- C1: evidence for the defect in `Aabb::hit`.  The source clamps the slab
interval the wrong way around (`t0.min(tmin)` and `t1.max(tmax)` instead of
a max and a min) and then compares the two `Float3`s with the derived
lexicographic order, so it reports a hit for a ray that misses the box: the
slab test of the spec is false here, yet the code returns true. -/
theorem aabb_hit_inverted_clamp_bug :
    Aabb.hit aabbBugBox aabbBugRay (1 / 1000) 1000 ∧
    ¬ specAabbSlabHit aabbBugBox aabbBugRay (1 / 1000) 1000 := by
  constructor
  · unfold Aabb.hit aabbBugBox aabbBugRay
    simp only [Float3.derivedLt, Float3.sdiv_x, Float3.sdiv_y, Float3.sdiv_z,
      Float3.sub_x, Float3.sub_y, Float3.sub_z, Float3.mul_x, Float3.mul_y,
      Float3.mul_z, Float3.fmin_x, Float3.fmin_y, Float3.fmin_z,
      Float3.fmax_x, Float3.fmax_y, Float3.fmax_z, Float3.xxx_x, Float3.xxx_y,
      Float3.xxx_z]
    norm_num
  · unfold specAabbSlabHit aabbBugBox aabbBugRay
    simp only [Float3.sdiv_x, Float3.sdiv_y, Float3.sdiv_z, Float3.sub_x,
      Float3.sub_y, Float3.sub_z, Float3.mul_x, Float3.mul_y, Float3.mul_z]
    norm_num

/-- C8 counterexample: as stated ("for every fixed refraction index") the
monotonicity claim is false.  At `refraction_index = -3` the base
reflectance `r0 = ((1+3)/(1-3))^2 = 4` exceeds 1, so `schlick` strictly
decreases as the cosine decreases: at the instance `ri = -3`, `c = 1`,
`c2 = 0` (which satisfies the claim's `0 <= c2 <= c <= 1` side conditions)
the claim demands `schlick 1 (-3) <= schlick 0 (-3)`, but the strict
reverse inequality holds: `schlick 0 (-3) = 1 < 4 = schlick 1 (-3)`. -/
theorem schlick_not_monotone_for_negative_index :
    (0 : ℝ) ≤ 0 ∧ ((0 : ℝ) ≤ 1 ∧ (1 : ℝ) ≤ 1) ∧
      schlick 0 (-3) < schlick 1 (-3) := by
  refine ⟨le_rfl, ⟨zero_le_one, le_rfl⟩, ?_⟩
  norm_num [schlick]

/-- C8 (amended): `schlick(cosine=1, ref_idx=1.5)` equals the base
reflectance `((1-1.5)/(1+1.5))^2 = 0.04` exactly, and for every fixed
NONNEGATIVE refraction index `schlick` is monotonically non-decreasing as
the cosine decreases from 1 toward 0. -/
theorem schlick_base_and_monotone :
    schlick 1 (3 / 2) = 1 / 25 ∧
    ∀ (ri c c2 : ℝ), 0 ≤ ri → 0 ≤ c2 → c2 ≤ c → c ≤ 1 →
      schlick c ri ≤ schlick c2 ri := by
  constructor
  · norm_num [schlick]
  · intro ri c c2 hri hc2 hle hc1
    unfold schlick
    have h1c : (0 : ℝ) ≤ 1 - c := by linarith
    have hpow : (1 - c) ^ 5 ≤ (1 - c2) ^ 5 :=
      pow_le_pow_left₀ h1c (by linarith) 5
    have hden : (0 : ℝ) < 1 + ri := by linarith
    have hA : (1 - ri) / (1 + ri) * ((1 - ri) / (1 + ri)) =
        ((1 - ri) * (1 - ri)) / ((1 + ri) * (1 + ri)) := div_mul_div_comm _ _ _ _
    have hle1 : (1 - ri) / (1 + ri) * ((1 - ri) / (1 + ri)) ≤ 1 := by
      rw [hA]
      apply div_le_one_of_le₀
      · nlinarith
      · positivity
    have key := mul_le_mul_of_nonneg_left hpow (by linarith :
      (0 : ℝ) ≤ 1 - (1 - ri) / (1 + ri) * ((1 - ri) / (1 + ri)))
    simp only []
    linarith

/-- C9: the integrator's recursion is bounded.  Each recursive call of
`color` strictly increments `depth` and only happens while
`depth < MAX_RAY_RECURSION`, so below a call at `depth` at most
`MAX_RAY_RECURSION - depth` further levels are entered; `MAX_RAY_RECURSION`
is 50, so a trace started at depth 0 never recurses more than 50 levels
deep. -/
theorem color_recursion_bounded :
    MAX_RAY_RECURSION = 50 ∧
    ∀ (rnd : ℕ → RandDraw) (world : List Hitable) (ray : Ray) (depth : ℕ),
      colorCallDepth rnd world ray depth ≤ MAX_RAY_RECURSION - depth := by
  refine ⟨rfl, ?_⟩
  suffices h : ∀ (k : ℕ) (rnd : ℕ → RandDraw) (world : List Hitable)
      (ray : Ray) (depth : ℕ), MAX_RAY_RECURSION - depth ≤ k →
      colorCallDepth rnd world ray depth ≤ MAX_RAY_RECURSION - depth by
    exact fun rnd world ray depth =>
      h (MAX_RAY_RECURSION - depth) rnd world ray depth le_rfl
  intro k
  induction k with
  | zero =>
      intro rnd world ray depth hk
      rw [colorCallDepth]
      cases hhit : hitableListHit world ray (1 / 1000) f64MAX with
      | none => simp
      | some rec =>
          have hnlt : ¬ depth < MAX_RAY_RECURSION := by omega
          simp [hnlt]
  | succ k ih =>
      intro rnd world ray depth hk
      rw [colorCallDepth]
      cases hhit : hitableListHit world ray (1 / 1000) f64MAX with
      | none => simp
      | some rec =>
          by_cases hlt : depth < MAX_RAY_RECURSION
          · simp only [dif_pos hlt]
            cases hok : (rec.material.scatter (rnd depth) ray rec).2.2
            · simp [hok]
            · simp only [hok, if_true]
              have hrec := ih rnd world
                (rec.material.scatter (rnd depth) ray rec).2.1 (depth + 1)
                (by omega)
              omega
          · simp [dif_neg hlt]

theorem surroundAll_eq_none_iff :
    ∀ (l : List (Option Aabb)) (acc : Aabb),
      surroundAll l acc = none ↔ none ∈ l := by
  intro l
  induction l with
  | nil => intro acc; simp [surroundAll]
  | cons o rest ih =>
      intro acc
      cases o with
      | none => simp [surroundAll]
      | some b => simp [surroundAll, ih]

theorem surroundAll_map_some :
    ∀ (bs : List Aabb) (acc : Aabb),
      surroundAll (bs.map some) acc = some (bs.foldl Aabb.surrounding acc) := by
  intro bs
  induction bs with
  | nil => intro acc; simp [surroundAll]
  | cons b rest ih => intro acc; simp [surroundAll, ih]

/-- C7: `HitableList::bounding_box` returns `none` exactly when the list is
empty or some member has no bounding box, and otherwise the union
(`Aabb::surrounding` fold) of all members' boxes. -/
theorem hitableList_boundingBox_characterization :
    ∀ (hs : List Hitable) (t0 t1 : ℝ),
      (hitableListBoundingBox hs t0 t1 = none ↔
        hs = [] ∨ ∃ h ∈ hs, h.boundingBox t0 t1 = none) ∧
      (∀ (b : Aabb) (bs : List Aabb),
        hs.map (fun h => h.boundingBox t0 t1) = some b :: bs.map some →
        hitableListBoundingBox hs t0 t1 =
          some (bs.foldl Aabb.surrounding b)) := by
  intro hs t0 t1
  constructor
  · unfold hitableListBoundingBox
    cases hhs : hs.map (fun h => h.boundingBox t0 t1) with
    | nil =>
        have : hs = [] := List.map_eq_nil_iff.mp hhs
        simp [this, hitableListBoundingBoxAux]
    | cons o rest =>
        have hne : hs ≠ [] := by
          intro hc
          rw [hc] at hhs
          cases hhs
        cases o with
        | none =>
            simp only [hitableListBoundingBoxAux]
            constructor
            · intro _
              right
              have : none ∈ hs.map (fun h => h.boundingBox t0 t1) := by
                rw [hhs]
                exact List.mem_cons_self _ _
              rcases List.mem_map.mp this with ⟨h, hmem, hbox⟩
              exact ⟨h, hmem, hbox⟩
            · intro _
              trivial
        | some b =>
            simp only [hitableListBoundingBoxAux]
            rw [surroundAll_eq_none_iff]
            constructor
            · intro hn
              right
              have : none ∈ hs.map (fun h => h.boundingBox t0 t1) := by
                rw [hhs]
                exact List.mem_cons_of_mem _ hn
              rcases List.mem_map.mp this with ⟨h, hmem, hbox⟩
              exact ⟨h, hmem, hbox⟩
            · rintro (hc | ⟨h, hmem, hbox⟩)
              · exact absurd hc hne
              · have : none ∈ hs.map (fun h => h.boundingBox t0 t1) :=
                  List.mem_map.mpr ⟨h, hmem, hbox⟩
                rw [hhs] at this
                rcases List.mem_cons.mp this with hh | hh
                · cases hh
                · exact hh
  · intro b bs hmap
    unfold hitableListBoundingBox
    rw [hmap]
    simp only [hitableListBoundingBoxAux]
    exact surroundAll_map_some bs b

theorem rawY_two_one_hundred : rawY 2 1 100 = 14 := by
  unfold rawY rustRound
  have harg : ((2 : ℕ) : ℝ) / (((1 : ℕ) : ℝ) / ((100 : ℕ) : ℝ)) = 200 := by
    norm_num
  rw [harg]
  have hfloor : (⌊Real.sqrt 200 + 1 / 2⌋ : ℤ) = 14 := by
    rw [Int.floor_eq_iff]
    constructor
    · have h : (13.5 : ℝ) ≤ Real.sqrt 200 := by
        rw [show (13.5 : ℝ) = Real.sqrt (13.5 ^ 2) from
          (Real.sqrt_sq (by norm_num)).symm]
        exact Real.sqrt_le_sqrt (by norm_num)
      push_cast
      linarith
    · have h : Real.sqrt 200 < 14.5 := by
        have := Real.sqrt_lt_sqrt (by norm_num : (0 : ℝ) ≤ 200)
          (by norm_num : (200 : ℝ) < 14.5 ^ 2)
        rwa [Real.sqrt_sq (by norm_num)] at this
      push_cast
      linarith
  rw [hfloor]
  norm_num

/-- C6: evidence for the defect in `pick_tiling_dimensions`.  The loop
initializes `best_error` to `n_tiles` with the comment "Worst possible
error", but for `n_tiles = 2` on a 1x100 image the ideal height rounds to
14 and EVERY factor's ratio error (14 for factor 1, 7 for factor 2) exceeds
that initial threshold, so no factor is ever accepted and the function
returns the default `y = 1` even though factor 2 has the strictly smaller
error ("rounding the previous raw_y value to the closest factor" fails). -/
theorem pick_tiling_failing_input :
    pick_tiling_dimensions 2 1 100 = (2, 1) ∧
    tileError (rawY 2 1 100) 2 < tileError (rawY 2 1 100) 1 ∧
    2 ∈ factors 2 := by
  have he1 : tileError (14 : ℝ) 1 = 14 := by
    unfold tileError
    norm_num
  have he2 : tileError (14 : ℝ) 2 = 7 := by
    unfold tileError
    norm_num
  have hfac : factors 2 = [1, 2] := by decide
  have hpick : pickBest (14 : ℝ) [1, 2] 1 ((2 : ℕ) : ℝ) = (1, 2) := by
    norm_num [pickBest, he1, he2]
  refine ⟨?_, ?_, by decide⟩
  · simp only [pick_tiling_dimensions, rawY_two_one_hundred, hfac, hpick]
  · rw [rawY_two_one_hundred, he1, he2]
    norm_num

/-- A unit sphere at the origin whose material visualizes the surface
normal (`NormalToRgb` scatters nothing and writes the unit normal as the
attenuation). -/
noncomputable def normalSphere : Sphere := ⟨⟨0, 0, 0⟩, 1, .normalToRgb⟩

/-- A one-sphere scene. -/
noncomputable def world0 : List Hitable := [.sphere normalSphere]

/-- A ray from (-3,0,0) along +x: it hits `normalSphere` at t = 2 in the
point (-1,0,0), where the outward normal (-1,0,0) has a negative
component. -/
noncomputable def ray0 : Ray := ⟨⟨-3, 0, 0⟩, ⟨1, 0, 0⟩, 0⟩

/-- The record of that hit. -/
noncomputable def rec0 : HitRecord := ⟨2, ⟨-1, 0, 0⟩, ⟨-1, 0, 0⟩, .normalToRgb⟩

/-- A fixed draw stream (the `NormalToRgb` material reads no randomness). -/
noncomputable def rnd0 : ℕ → RandDraw := fun _ => ⟨⟨0, 0, 0⟩, 0⟩

theorem two_lt_f64MAX : (2 : ℝ) < f64MAX := by
  unfold f64MAX
  have h1 : (2 : ℝ) ^ 971 ≤ 2 ^ 1023 := by
    apply pow_le_pow_right₀ (by norm_num)
    norm_num
  have h2 : (2 : ℝ) ^ 1023 + 2 ^ 1023 = 2 ^ 1024 := by ring
  have h3 : (2 : ℝ) ≤ 2 ^ 1023 := by
    calc (2 : ℝ) = 2 ^ 1 := (pow_one 2).symm
    _ ≤ 2 ^ 1023 := by
        apply pow_le_pow_right₀ (by norm_num)
        norm_num
  linarith

theorem normalSphere_hit_eval :
    normalSphere.hit ray0 (1 / 1000) f64MAX = some rec0 := by
  have ha : Sphere.hitA ray0 = 1 := by
    norm_num [Sphere.hitA, Float3.length_sq, Float3.dot, ray0]
  have hb : normalSphere.hitB ray0 = -3 := by
    norm_num [Sphere.hitB, Sphere.oc, Float3.dot, normalSphere, ray0]
  have hc : normalSphere.hitC ray0 = 8 := by
    norm_num [Sphere.hitC, Sphere.oc, Float3.length_sq, Float3.dot,
      normalSphere, ray0]
  have hdisc : normalSphere.hitDisc ray0 = 1 := by
    rw [Sphere.hitDisc, ha, hb, hc]
    norm_num
  have hr1 : normalSphere.root1 ray0 = 2 := by
    rw [Sphere.root1, ha, hb, hdisc, Real.sqrt_one]
    norm_num
  unfold Sphere.hit
  rw [hdisc, hr1]
  rw [if_pos (by norm_num), if_pos ⟨by norm_num, two_lt_f64MAX⟩]
  unfold Sphere.hitRecAt rec0
  have hat : ray0.at_t 2 = ⟨-1, 0, 0⟩ := by
    unfold Ray.at_t ray0
    ext <;> norm_num
  rw [hat]
  have hnorm : (Float3.mk (-1) 0 0 - normalSphere.center) / normalSphere.radius =
      Float3.mk (-1) 0 0 := by
    unfold normalSphere
    ext <;> norm_num
  rw [hnorm]
  rfl

theorem worldHit0_eval :
    hitableListHit world0 ray0 (1 / 1000) f64MAX = some rec0 := by
  unfold hitableListHit world0
  simp only [hitableListHitAux, Hitable.hit]
  rw [normalSphere_hit_eval]

theorem unit_neg_x : (Float3.mk (-1) 0 0).unit = ⟨-1, 0, 0⟩ := by
  unfold Float3.unit Float3.length
  have h : (Float3.mk (-1) 0 0).length_sq = 1 := by
    norm_num [Float3.length_sq, Float3.dot]
  rw [h, Real.sqrt_one]
  ext <;> norm_num

theorem scatter0_eval :
    rec0.material.scatter (rnd0 0) ray0 rec0 =
      (⟨-1, 0, 0⟩, Ray.default, false) := by
  show Material.normalToRgb.scatter (rnd0 0) ray0 rec0 = _
  simp only [Material.scatter]
  rw [show rec0.normal = Float3.mk (-1) 0 0 from rfl, unit_neg_x]

theorem color0_eval : color rnd0 world0 ray0 0 = ⟨1, 0, 0⟩ := by
  rw [color, worldHit0_eval]
  simp only [dif_pos (by norm_num [MAX_RAY_RECURSION] : 0 < MAX_RAY_RECURSION)]
  rw [scatter0_eval]
  simp only [Bool.false_eq_true, if_false]
  ext <;> simp [Float3.abs]

/-- C2 (amended): when `color` finds a hit it returns
`attenuation * color(scattered, world, depth+1)` (element-wise) when
`depth < MAX_RAY_RECURSION` and the material scatters; the runaway marker
color (1,0,1) when `depth = MAX_RAY_RECURSION`; and the COMPONENTWISE
ABSOLUTE VALUE of the attenuation when `depth < MAX_RAY_RECURSION` and the
material does not scatter (the source returns `attenuation.abs()`, not the
attenuation itself). -/
theorem color_hit_characterization (rnd : ℕ → RandDraw) (world : List Hitable)
    (ray : Ray) (depth : ℕ) (rec : HitRecord)
    (h : hitableListHit world ray (1 / 1000) f64MAX = some rec) :
    (depth < MAX_RAY_RECURSION →
      (rec.material.scatter (rnd depth) ray rec).2.2 = true →
      color rnd world ray depth =
        (rec.material.scatter (rnd depth) ray rec).1 *
          color rnd world (rec.material.scatter (rnd depth) ray rec).2.1
            (depth + 1)) ∧
    (depth = MAX_RAY_RECURSION → color rnd world ray depth = ⟨1, 0, 1⟩) ∧
    (depth < MAX_RAY_RECURSION →
      (rec.material.scatter (rnd depth) ray rec).2.2 = false →
      color rnd world ray depth =
        (rec.material.scatter (rnd depth) ray rec).1.abs) := by
  refine ⟨?_, ?_, ?_⟩
  · intro hlt hok
    rw [color, h]
    simp only [dif_pos hlt, hok, if_true]
  · intro heq
    rw [color, h]
    have hnlt : ¬ depth < MAX_RAY_RECURSION := by omega
    simp only [dif_neg hnlt, if_pos heq]
  · intro hlt hnok
    rw [color, h]
    simp only [dif_pos hlt, hnok, Bool.false_eq_true, if_false]

/-- C2 counterexample: the claim as stated ("the attenuation alone when the
material does not scatter") is false.  In the one-sphere `NormalToRgb`
scene, the hit at depth 0 does not scatter and sets the attenuation to the
unit normal (-1,0,0); `color` returns its componentwise absolute value
(1,0,0), which differs from the attenuation. -/
theorem color_not_attenuation_alone :
    hitableListHit world0 ray0 (1 / 1000) f64MAX = some rec0 ∧
    (0 : ℕ) < MAX_RAY_RECURSION ∧
    (rec0.material.scatter (rnd0 0) ray0 rec0).2.2 = false ∧
    (rec0.material.scatter (rnd0 0) ray0 rec0).1 = ⟨-1, 0, 0⟩ ∧
    color rnd0 world0 ray0 0 = ⟨1, 0, 0⟩ ∧
    (Float3.mk 1 0 0 ≠ Float3.mk (-1) 0 0) := by
  refine ⟨worldHit0_eval, by norm_num [MAX_RAY_RECURSION], ?_, ?_, color0_eval, ?_⟩
  · rw [scatter0_eval]
  · rw [scatter0_eval]
  · intro hcontra
    have := congrArg Float3.x hcontra
    norm_num at this

/-- C2 witness: the characterization applied to the concrete
`NormalToRgb` scene at depth 0, with its hypothesis discharged by the
computed hit record. -/
theorem color_hit_characterization_witness :
    hitableListHit world0 ray0 (1 / 1000) f64MAX = some rec0 ∧
    color rnd0 world0 ray0 0 =
      ((rec0.material.scatter (rnd0 0) ray0 rec0).1).abs :=
  ⟨worldHit0_eval,
    (color_hit_characterization rnd0 world0 ray0 0 rec0 worldHit0_eval).2.2
      (by norm_num [MAX_RAY_RECURSION]) (by rw [scatter0_eval])⟩

/-- A ray going straight down the -z axis, time-tagged 1. -/
noncomputable def rayD : Ray := ⟨⟨0, 0, 0⟩, ⟨0, 0, -1⟩, 1⟩

/-- A hit of that ray from outside a surface with normal +z, on a
dielectric of refraction index 1/2. -/
noncomputable def recD : HitRecord := ⟨1, ⟨0, 0, 0⟩, ⟨0, 0, 1⟩, .dielectric (1 / 2)⟩

/-- A draw whose uniform component equals the schlick reflectance of this
configuration exactly (`schlick(1, 2) = 1/9`). -/
noncomputable def drawD : RandDraw := ⟨⟨0, 0, 0⟩, 1 / 9⟩

theorem rayD_dot_normal : rayD.dir.dot recD.normal = -1 := by
  norm_num [rayD, recD, Float3.dot]

theorem dielectricOutwardNormal_eval :
    dielectricOutwardNormal rayD recD = ⟨0, 0, 1⟩ := by
  unfold dielectricOutwardNormal
  rw [rayD_dot_normal, if_neg (by norm_num)]
  rfl

theorem dielectricEta_eval : dielectricEta (1 / 2) rayD recD = 2 := by
  unfold dielectricEta
  rw [rayD_dot_normal, if_neg (by norm_num)]
  norm_num

theorem rayD_unit : rayD.dir.unit = ⟨0, 0, -1⟩ := by
  unfold Float3.unit Float3.length rayD
  have h : (Float3.mk 0 0 (-1)).length_sq = 1 := by
    norm_num [Float3.length_sq, Float3.dot]
  simp only []
  rw [h, Real.sqrt_one]
  ext <;> norm_num

theorem dielectricCosine_eval : dielectricCosine (1 / 2) rayD recD = 1 := by
  unfold dielectricCosine
  rw [rayD_dot_normal, if_neg (by norm_num), rayD_unit]
  norm_num [recD, Float3.dot]

theorem refractD_eval :
    rayD.dir.refract (Float3.mk 0 0 1) 2 = some ⟨0, 0, -1⟩ := by
  unfold Float3.refract
  rw [rayD_unit]
  have hdt : (Float3.mk 0 0 (-1)).dot ⟨0, 0, 1⟩ = -1 := by
    norm_num [Float3.dot]
  norm_num [hdt, Real.sqrt_one, Float3.ext_iff]

theorem schlick_one_two : schlick 1 2 = 1 / 9 := by
  norm_num [schlick]

theorem scatterD_dir_eval :
    ((Material.dielectric (1 / 2)).scatter drawD rayD recD).2.1.dir =
      ⟨0, 0, -1⟩ := by
  simp only [Material.scatter]
  rw [dielectricOutwardNormal_eval, dielectricEta_eval, refractD_eval,
    dielectricCosine_eval]
  simp only [schlick_one_two]
  rw [if_pos (by norm_num [drawD])]

/-- C3 (amended): `Dielectric::scatter` always reports a scattered ray
(`true`) with attenuation (1,1,1), anchored at the hit point with the
incoming ray's time tag; when Snell refraction is geometrically possible it
refracts exactly when the uniform draw is AT LEAST `schlick(cosine,
refraction_index)` (the source compares with `>=`, so the refraction
probability is `1 - schlick`), reflecting otherwise; when refraction is
geometrically impossible (total internal reflection) it always reflects. -/
theorem dielectric_scatter_characterization (ri : ℝ) (d : RandDraw)
    (rayIn : Ray) (rec : HitRecord) :
    ((Material.dielectric ri).scatter d rayIn rec).1 = ⟨1, 1, 1⟩ ∧
    ((Material.dielectric ri).scatter d rayIn rec).2.2 = true ∧
    ((Material.dielectric ri).scatter d rayIn rec).2.1.origin = rec.p ∧
    ((Material.dielectric ri).scatter d rayIn rec).2.1.t = rayIn.t ∧
    (∀ refracted,
      rayIn.dir.refract (dielectricOutwardNormal rayIn rec)
          (dielectricEta ri rayIn rec) = some refracted →
      ((Material.dielectric ri).scatter d rayIn rec).2.1.dir =
        if schlick (dielectricCosine ri rayIn rec)
            (dielectricEta ri rayIn rec) ≤ d.uniform then refracted
        else rayIn.dir.reflect rec.normal) ∧
    (rayIn.dir.refract (dielectricOutwardNormal rayIn rec)
        (dielectricEta ri rayIn rec) = none →
      ((Material.dielectric ri).scatter d rayIn rec).2.1.dir =
        rayIn.dir.reflect rec.normal) := by
  refine ⟨rfl, rfl, rfl, rfl, ?_, ?_⟩
  · intro refracted hr
    simp only [Material.scatter]
    rw [hr]
  · intro hr
    simp only [Material.scatter]
    rw [hr]

/-- C3 counterexample: the claim as stated refracts only when the draw
STRICTLY exceeds the schlick reflectance; the source refracts on `>=`.  In
a configuration where refraction is possible and the draw equals the
reflectance exactly, the code takes the refracted direction, so "refracts
iff the draw exceeds schlick" is false at this input. -/
theorem dielectric_refracts_at_equal_draw :
    rayD.dir.refract (dielectricOutwardNormal rayD recD)
        (dielectricEta (1 / 2) rayD recD) = some ⟨0, 0, -1⟩ ∧
    drawD.uniform = schlick (dielectricCosine (1 / 2) rayD recD)
        (dielectricEta (1 / 2) rayD recD) ∧
    ((Material.dielectric (1 / 2)).scatter drawD rayD recD).2.1.dir =
      ⟨0, 0, -1⟩ ∧
    ¬(((Material.dielectric (1 / 2)).scatter drawD rayD recD).2.1.dir =
        ⟨0, 0, -1⟩ ↔
      schlick (dielectricCosine (1 / 2) rayD recD)
          (dielectricEta (1 / 2) rayD recD) < drawD.uniform) := by
  have h1 : rayD.dir.refract (dielectricOutwardNormal rayD recD)
      (dielectricEta (1 / 2) rayD recD) = some ⟨0, 0, -1⟩ := by
    rw [dielectricOutwardNormal_eval, dielectricEta_eval]
    exact refractD_eval
  have h2 : drawD.uniform = schlick (dielectricCosine (1 / 2) rayD recD)
      (dielectricEta (1 / 2) rayD recD) := by
    rw [dielectricCosine_eval, dielectricEta_eval, schlick_one_two]
    norm_num [drawD]
  refine ⟨h1, h2, scatterD_dir_eval, ?_⟩
  intro hiff
  have := hiff.mp scatterD_dir_eval
  rw [dielectricCosine_eval, dielectricEta_eval, schlick_one_two] at this
  norm_num [drawD] at this

/-- C3 witness: the characterization applied to the concrete refracting
configuration, its refraction hypothesis discharged by computation. -/
theorem dielectric_scatter_characterization_witness :
    rayD.dir.refract (dielectricOutwardNormal rayD recD)
        (dielectricEta (1 / 2) rayD recD) = some ⟨0, 0, -1⟩ ∧
    ((Material.dielectric (1 / 2)).scatter drawD rayD recD).2.1.dir =
      (if schlick (dielectricCosine (1 / 2) rayD recD)
          (dielectricEta (1 / 2) rayD recD) ≤ drawD.uniform
        then Float3.mk 0 0 (-1)
        else rayD.dir.reflect recD.normal) := by
  have h1 : rayD.dir.refract (dielectricOutwardNormal rayD recD)
      (dielectricEta (1 / 2) rayD recD) = some ⟨0, 0, -1⟩ := by
    rw [dielectricOutwardNormal_eval, dielectricEta_eval]
    exact refractD_eval
  exact ⟨h1,
    (dielectric_scatter_characterization (1 / 2) drawD rayD recD).2.2.2.2.1
      ⟨0, 0, -1⟩ h1⟩

/-- A unit Lambertian sphere at the origin. -/
noncomputable def sphereW4 : Sphere := ⟨⟨0, 0, 0⟩, 1, .lambertian ⟨1, 1, 1⟩⟩

/-- A ray from (3,0,0) along -x. -/
noncomputable def rayW4 : Ray := ⟨⟨3, 0, 0⟩, ⟨-1, 0, 0⟩, 0⟩

/-- C4 witness: the quadratic characterization applied to a concrete sphere
and ray, its nondegeneracy hypotheses discharged. -/
theorem sphere_hit_quadratic_witness :
    rayW4.dir ≠ Float3.new ∧ ((0 : ℝ) < 3) ∧
      sphereW4.root1 rayW4 ≤ sphereW4.root2 rayW4 := by
  have hd : rayW4.dir ≠ Float3.new := by
    intro hc
    have := congrArg Float3.x hc
    norm_num [rayW4, Float3.new] at this
  exact ⟨hd, by norm_num,
    (sphere_hit_quadratic sphereW4 rayW4 0 3 hd (by norm_num)).2.2.1⟩

/-- C5 witness: the closest-hit characterization applied to the concrete
one-sphere scene, its hypotheses discharged. -/
theorem hitableList_hit_closest_witness :
    ray0.dir ≠ Float3.new ∧ ((1 : ℝ) / 1000 < 1000) ∧
      hitableListHit world0 ray0 (1 / 1000) 1000 =
        specBestHit (world0.map (fun h => h.hit ray0 (1 / 1000) 1000)) := by
  have hd : ray0.dir ≠ Float3.new := by
    intro hc
    have := congrArg Float3.x hc
    norm_num [ray0, Float3.new] at this
  exact ⟨hd, by norm_num,
    (hitableList_hit_closest world0 ray0 (1 / 1000) 1000 hd (by norm_num)).1⟩

/-- C10 witness: the interval invariant applied to the concrete one-sphere
scene, its hit hypothesis discharged by the computed record. -/
theorem hit_t_within_interval_witness :
    hitableListHit world0 ray0 (1 / 1000) f64MAX = some rec0 ∧
    ((1 : ℝ) / 1000 < rec0.t ∧ rec0.t < f64MAX) :=
  ⟨worldHit0_eval,
    hit_t_within_interval.2.2 world0 ray0 (1 / 1000) f64MAX rec0 worldHit0_eval⟩

theorem normalSphere_boundingBox_eval :
    normalSphere.boundingBox 0 1 =
      some ⟨⟨-1, -1, -1⟩, ⟨1, 1, 1⟩⟩ := by
  unfold Sphere.boundingBox normalSphere
  norm_num [Aabb.mk.injEq, Float3.ext_iff, Float3.abs, Float3.xxx]

/-- C7 witness: the bounding-box characterization applied to a concrete
two-sphere list, its all-members-boxed hypothesis discharged by
computation. -/
theorem hitableList_boundingBox_characterization_witness :
    ([Hitable.sphere normalSphere, Hitable.sphere normalSphere].map
        (fun h => h.boundingBox 0 1) =
      some (Aabb.mk ⟨-1, -1, -1⟩ ⟨1, 1, 1⟩) ::
        [Aabb.mk ⟨-1, -1, -1⟩ ⟨1, 1, 1⟩].map some) ∧
    hitableListBoundingBox
        [Hitable.sphere normalSphere, Hitable.sphere normalSphere] 0 1 =
      some ([Aabb.mk ⟨-1, -1, -1⟩ ⟨1, 1, 1⟩].foldl Aabb.surrounding
        (Aabb.mk ⟨-1, -1, -1⟩ ⟨1, 1, 1⟩)) := by
  have hmap : [Hitable.sphere normalSphere, Hitable.sphere normalSphere].map
      (fun h => h.boundingBox 0 1) =
      some (Aabb.mk ⟨-1, -1, -1⟩ ⟨1, 1, 1⟩) ::
        [Aabb.mk ⟨-1, -1, -1⟩ ⟨1, 1, 1⟩].map some := by
    simp [Hitable.boundingBox, normalSphere_boundingBox_eval]
  exact ⟨hmap,
    (hitableList_boundingBox_characterization
      [Hitable.sphere normalSphere, Hitable.sphere normalSphere] 0 1).2
      (Aabb.mk ⟨-1, -1, -1⟩ ⟨1, 1, 1⟩) [Aabb.mk ⟨-1, -1, -1⟩ ⟨1, 1, 1⟩] hmap⟩
